import Mathlib

/-!
A model of the `rustplayer` terminal audio player (`src/app.rs`) and proofs
about its library-scan, playback-session and input-handling logic.

Modelling conventions:
* `std::time::Duration` values are natural numbers of nanoseconds
  (non-negative, exact); `Duration::from_secs n` is `secs n`.
* `usize` arithmetic that can underflow (`len() - 1` on an empty library)
  is modelled with explicit wrapping modulo `2 ^ 64`, the release-build
  semantics of Rust (debug builds would panic at the same spot).
* Fallible operations return their updated state together with
  `Option RunErr`; `RunErr.err` models an `eyre` error propagated with `?`,
  `RunErr.panic` models a Rust panic (out-of-bounds index, failed `expect`).
* The file system seen by `Library::scan` is a finite tree `FsTree`; a
  directory whose `read_dir` fails is `dirMissing`, an entry whose
  `DirEntry` result is an `Err` (silently dropped by `.flatten()`) is
  `entryFail`, an entry whose `file_type()` query fails is `typeFail`.
* The audio decoder (`File::open` + `Decoder::new`) and the sink's
  `try_seek` are opaque environment functions in `Env`.
* `f32` volume is modelled with exact rationals; no claim depends on it.
-/

namespace RustPlayer

/-- One second in nanoseconds, modelling `Duration::from_secs`. -/
def secs (n : Nat) : Nat := n * 1000000000

/-- `2 ^ 64`, the modulus of Rust's `usize` on the target platform. -/
def USIZE : Nat := 2 ^ 64

/-- Release-mode `n.wrapping_sub(1)` on `usize`, modelling the
`self.library().files().len() - 1` expressions in `app.rs`. -/
def usizeSub1 (n : Nat) : Nat := (n + (USIZE - 1)) % USIZE

/-- Release-mode `n + 1` on `usize`. -/
def usizeAdd1 (n : Nat) : Nat := (n + 1) % USIZE

/-- The tag fields `SongInfo::new` reads from an `audiotags` tag
(`struct SongInfo` fields that no code path reads are omitted).
`duration` is `tag.duration()`, `None` when the tag has no duration. -/
structure TagData where
  title : Option String
  album : Option String
  artist : Option String
  track : Option Nat × Option Nat
  duration : Option Nat
  deriving Repr, DecidableEq

/-- `struct SongInfo` from `app.rs` (the fields the program reads). -/
structure SongInfo where
  title : Option String
  album : Option String
  artist : Option String
  track : Option Nat × Option Nat
  duration : Nat
  file_path : String
  deriving Repr, DecidableEq

/-- `SongInfo::new`: duration from the tag when present, else from
`mp3_duration::from_path` (`mp3dur`), else `Duration::ZERO`. -/
def SongInfo.new (path : String) (tag : TagData) (mp3dur : Option Nat) : SongInfo :=
  { title := tag.title
    album := tag.album
    artist := tag.artist
    track := tag.track
    duration := (tag.duration.getD (mp3dur.getD 0))
    file_path := path }

/-- The directory tree `Library::scan` traverses.  A `file` carries its
path, its extension (`path.extension()`), the tag-read outcome
(`none` models `Tag::read_from_path` returning `Err`) and the
`mp3_duration` fallback.  `dirMissing` is a directory whose `read_dir`
fails, `entryFail` a directory entry whose read fails (dropped by
`.flatten()`), `typeFail` an entry whose `file_type()` fails, `other`
an entry that is neither directory nor regular file. -/
inductive FsTree where
  | file (path : String) (ext : Option String) (tag : Option TagData) (mp3dur : Option Nat)
  | dirOk (path : String) (entries : List FsTree)
  | dirMissing (path : String) (msg : String)
  | entryFail
  | typeFail (path : String) (msg : String)
  | other (path : String)
  deriving Repr

/-- Extension filter: `["mp3", "flac"].contains(ext)`, case-sensitive;
a file without extension never matches. -/
def extSupported : Option String → Bool
  | some e => ["mp3", "flac"].contains e
  | none => false

mutual
/-- Size measure used to show the scan's work-stack loop terminates. -/
def FsTree.size : FsTree → Nat
  | .dirOk _ es => 1 + FsTree.sizeList es
  | _ => 1

def FsTree.sizeList : List FsTree → Nat
  | [] => 0
  | t :: ts => FsTree.size t + FsTree.sizeList ts
end

/-- One directory's pass of the scan loop body (`for p in read_dir(dir)?.flatten()`):
walks the listing left to right, appending parsed songs to `acc`,
counting every supported-extension file in `seen`, collecting the
directory entries (in listing order) to be pushed on the work stack.
A `typeFail` entry models `p.file_type()?` propagating an error; the
songs already pushed stay in `acc` (the Rust code mutates `self.files`
in place). -/
def processEntries : List FsTree → List SongInfo → Nat →
    List SongInfo × Except String (Nat × List FsTree)
  | [], acc, seen => (acc, .ok (seen, []))
  | .entryFail :: es, acc, seen => processEntries es acc seen
  | .typeFail _ msg :: _, acc, _ => (acc, .error msg)
  | .dirOk p sub :: es, acc, seen =>
      match processEntries es acc seen with
      | (acc', .ok (seen', subdirs)) => (acc', .ok (seen', .dirOk p sub :: subdirs))
      | r => r
  | .dirMissing p m :: es, acc, seen =>
      match processEntries es acc seen with
      | (acc', .ok (seen', subdirs)) => (acc', .ok (seen', .dirMissing p m :: subdirs))
      | r => r
  | .file p ext tag md :: es, acc, seen =>
      if extSupported ext then
        match tag with
        | some t => processEntries es (acc ++ [SongInfo.new p t md]) (seen + 1)
        | none => processEntries es acc (seen + 1)
      else processEntries es acc seen
  | .other _ :: es, acc, seen => processEntries es acc seen

theorem processEntries_size_le (es : List FsTree) (acc : List SongInfo) (seen : Nat) :
    ∀ (acc' : List SongInfo) (seen' : Nat) (subdirs : List FsTree),
    processEntries es acc seen = (acc', .ok (seen', subdirs)) →
    FsTree.sizeList subdirs ≤ FsTree.sizeList es := by
  induction es, acc, seen using processEntries.induct with
  | case1 acc seen =>
    intro acc' seen' subdirs h
    simp only [processEntries, Prod.mk.injEq, Except.ok.injEq] at h
    obtain ⟨-, -, h3⟩ := h
    subst h3
    simp [FsTree.sizeList]
  | case2 es acc seen ih =>
    intro acc' seen' subdirs h
    simp only [processEntries] at h
    have := ih _ _ _ h
    simp only [FsTree.sizeList, FsTree.size]
    omega
  | case3 p msg es acc seen =>
    intro acc' seen' subdirs h
    simp only [processEntries] at h
    cases h
  | case4 p sub es acc seen a s' sd hrec ih =>
    intro acc' seen' subdirs h
    simp only [processEntries, hrec, Prod.mk.injEq, Except.ok.injEq] at h
    obtain ⟨-, -, h3⟩ := h
    subst h3
    have := ih _ _ _ hrec
    simp only [FsTree.sizeList, FsTree.size]
    omega
  | case5 p sub es acc seen hfail ih =>
    intro acc' seen' subdirs h
    simp only [processEntries] at h
    rcases hrec : processEntries es acc seen with ⟨a, r⟩
    rw [hrec] at h
    cases r with
    | ok v => exact absurd hrec (by rcases v with ⟨u1, u2⟩; intro hc; exact hfail _ _ _ hc)
    | error e => simp at h
  | case6 p m es acc seen a s' sd hrec ih =>
    intro acc' seen' subdirs h
    simp only [processEntries, hrec, Prod.mk.injEq, Except.ok.injEq] at h
    obtain ⟨-, -, h3⟩ := h
    subst h3
    have := ih _ _ _ hrec
    simp only [FsTree.sizeList, FsTree.size]
    omega
  | case7 p m es acc seen hfail ih =>
    intro acc' seen' subdirs h
    simp only [processEntries] at h
    rcases hrec : processEntries es acc seen with ⟨a, r⟩
    rw [hrec] at h
    cases r with
    | ok v => exact absurd hrec (by rcases v with ⟨u1, u2⟩; intro hc; exact hfail _ _ _ hc)
    | error e => simp at h
  | case8 p ext md es acc seen hx t ih =>
    intro acc' seen' subdirs h
    simp only [processEntries, hx, if_pos] at h
    have := ih _ _ _ h
    simp only [FsTree.sizeList, FsTree.size]
    omega
  | case9 p ext md es acc seen hx ih =>
    intro acc' seen' subdirs h
    simp only [processEntries, hx, if_pos] at h
    have := ih _ _ _ h
    simp only [FsTree.sizeList, FsTree.size]
    omega
  | case10 p ext tag md es acc seen hx ih =>
    intro acc' seen' subdirs h
    simp only [processEntries, hx, if_neg, Bool.not_eq_true] at h
    have := ih _ _ _ h
    simp only [FsTree.sizeList, FsTree.size]
    omega
  | case11 p es acc seen ih =>
    intro acc' seen' subdirs h
    simp only [processEntries] at h
    have := ih _ _ _ h
    simp only [FsTree.sizeList, FsTree.size]
    omega

theorem sizeList_append (xs ys : List FsTree) :
    FsTree.sizeList (xs ++ ys) = FsTree.sizeList xs + FsTree.sizeList ys := by
  induction xs with
  | nil => simp [FsTree.sizeList]
  | cons x xs ih => simp [FsTree.sizeList, ih]; omega

theorem sizeList_reverse (xs : List FsTree) :
    FsTree.sizeList xs.reverse = FsTree.sizeList xs := by
  induction xs with
  | nil => rfl
  | cons x xs ih =>
    simp [List.reverse_cons, sizeList_append, FsTree.sizeList, ih]
    omega

/-- The scan's work-stack loop (`while let Some(dir) = to_scan.pop()`).
The Rust `Vec` stack pops from the back; here the head of the list is
the top of the stack, so a directory's subdirectories are pushed
reversed (the last one listed is scanned first, as in the source). -/
def scanLoop : List FsTree → List SongInfo → Nat → List SongInfo × Except String Nat
  | [], acc, seen => (acc, .ok seen)
  | .dirOk _ entries :: rest, acc, seen =>
      match h : processEntries entries acc seen with
      | (acc', .ok (seen', subdirs)) => scanLoop (subdirs.reverse ++ rest) acc' seen'
      | (acc', .error e) => (acc', .error e)
  | .dirMissing _ msg :: _, acc, _ => (acc, .error msg)
  | .file _ _ _ _ :: rest, acc, seen => scanLoop rest acc seen
  | .entryFail :: rest, acc, seen => scanLoop rest acc seen
  | .typeFail _ _ :: rest, acc, seen => scanLoop rest acc seen
  | .other _ :: rest, acc, seen => scanLoop rest acc seen
termination_by stack _ _ => FsTree.sizeList stack
decreasing_by
  all_goals simp [FsTree.sizeList, FsTree.size]
  · have := processEntries_size_le _ _ _ _ _ _ h
    rw [sizeList_append, sizeList_reverse]
    omega

/-- First component of the `sort_by_key` key:
`f.artist.clone().unwrap_or("Unknown")`.  Strings are compared as their
character sequences: Rust orders `String`s by UTF-8 bytes, and UTF-8
byte order coincides with code-point lexicographic order. -/
def artistKey (f : SongInfo) : List Char := (f.artist.getD "Unknown").data

/-- Second key component: `f.album.clone().unwrap_or("Unknown")`. -/
def albumKey (f : SongInfo) : List Char := (f.album.getD "Unknown").data

/-- Third key component: `f.track.0.unwrap_or(0)`. -/
def trackKey (f : SongInfo) : Nat := f.track.1.getD 0

/-- Sort key order of `Library::scan`'s `sort_by_key`: lexicographic on
(artist or "Unknown", album or "Unknown", track number or 0). -/
def keyLe (a b : SongInfo) : Prop :=
  artistKey a < artistKey b ∨ (artistKey a = artistKey b ∧
    (albumKey a < albumKey b ∨ (albumKey a = albumKey b ∧ trackKey a ≤ trackKey b)))

instance keyLe.instDecidable (a b : SongInfo) : Decidable (keyLe a b) :=
  decidable_of_iff (artistKey a < artistKey b ∨ (artistKey a = artistKey b ∧
    (albumKey a < albumKey b ∨ (albumKey a = albumKey b ∧ trackKey a ≤ trackKey b)))) Iff.rfl

/-- `self.files.sort_by_key(...)`: a stable merge sort by `keyLe`. -/
def sortFiles (fs : List SongInfo) : List SongInfo :=
  fs.mergeSort fun a b => decide (keyLe a b)

/-- `struct Library`. -/
structure Library where
  root_dir : String
  files : List SongInfo
  deriving Repr, DecidableEq

/-- `Library::scan`, run against the directory tree `fs` rooted at
`root_dir`.  Clears `files` first (`self.files.clear()`), traverses,
and sorts only on success (a propagated traversal error leaves the
files pushed so far, unsorted, in place). -/
def Library.scan (lib : Library) (fs : FsTree) : Library × Except String Nat :=
  match scanLoop [fs] [] 0 with
  | (files, .ok seen) => ({ lib with files := sortFiles files }, .ok seen)
  | (files, .error e) => ({ lib with files := files }, .error e)

/-- A decoded audio source as the engine sees it: `Decoder::new` output,
of which the program only reads `total_duration()`. -/
structure Source where
  totalDuration : Option Nat
  deriving Repr, DecidableEq

/-- A rodio `Sink`: pause flag, queued sources and volume.  `clear`
removes all sources and pauses (rodio semantics); volume is kept as an
exact rational (`f32` rounding is irrelevant to every claim). -/
structure Sink where
  paused : Bool
  queue : List Source
  volume : ℚ
  deriving Repr, DecidableEq

def Sink.clear (s : Sink) : Sink := { s with queue := [], paused := true }

def Sink.append (s : Sink) (src : Source) : Sink := { s with queue := s.queue ++ [src] }

def Sink.play (s : Sink) : Sink := { s with paused := false }

def Sink.pause (s : Sink) : Sink := { s with paused := true }

/-- Outcome of a fallible operation: `err` is an `eyre::Result` error
propagated with `?`; `panic` is a Rust panic (out-of-bounds indexing,
a failed `expect`). -/
inductive RunErr where
  | panic (msg : String)
  | err (msg : String)
  deriving Repr, DecidableEq

/-- The external world: the decode pipeline (`File::open` plus
`Decoder::new`, per path), the sink's `try_seek` acceptance (per seek
target), and the directory tree under the library root (read when the
rescan key is pressed). -/
structure Env where
  loader : String → Except String Source
  seekOk : Nat → Bool
  fs : FsTree

/-- `struct AudioManager` (the `OutputStream` handles carry no state the
program reads and are omitted). -/
structure AudioManager where
  sink : Sink
  playback_progress : Nat
  active_source_duration : Option Nat
  deriving Repr, DecidableEq

namespace AudioManager

/-- `AudioManager::toggle_playback`. -/
def toggle_playback (am : AudioManager) : AudioManager :=
  if am.sink.paused then { am with sink := am.sink.play }
  else { am with sink := am.sink.pause }

/-- `AudioManager::set_active_source`: decoding happens first; on a
decode/open error nothing has been touched and the error propagates.
On success the duration snapshot, the sink queue (cleared then the new
source appended) and the progress counter are all replaced. -/
def set_active_source (env : Env) (am : AudioManager) (path : String) :
    AudioManager × Option RunErr :=
  match env.loader path with
  | .error e => (am, some (.err e))
  | .ok source =>
      ({ am with
          active_source_duration := source.totalDuration
          sink := (am.sink.clear).append source
          playback_progress := 0 }, none)

/-- `AudioManager::skip`: `self.active_source_duration.expect(...)`.
A `None` duration is a panic. -/
def skip (am : AudioManager) : AudioManager × Option RunErr :=
  match am.active_source_duration with
  | none => (am, some (.panic "Already checked if we have an active source."))
  | some d => ({ am with playback_progress := d }, none)

/-- `AudioManager::seek_forward`: fixed 5-second step, committed only
when the sink accepts the seek. -/
def seek_forward (env : Env) (am : AudioManager) : AudioManager :=
  let seek_diff := secs 5
  if env.seekOk (am.playback_progress + seek_diff) then
    { am with playback_progress := am.playback_progress + seek_diff }
  else am

/-- `AudioManager::seek_backward`: fixed 1-second step.  Below one
second of progress the counter is zeroed *before* `try_seek`, whose
result is discarded; otherwise the step is committed only when the
sink accepts the seek. -/
def seek_backward (env : Env) (am : AudioManager) : AudioManager :=
  let seek_diff := secs 1
  if seek_diff > am.playback_progress then
    { am with playback_progress := 0 }
  else if env.seekOk (am.playback_progress - seek_diff) then
    { am with playback_progress := am.playback_progress - seek_diff }
  else am

/-- `AudioManager::play`. -/
def play (am : AudioManager) : AudioManager := { am with sink := am.sink.play }

/-- `AudioManager::pause`. -/
def pause (am : AudioManager) : AudioManager := { am with sink := am.sink.pause }

/-- `AudioManager::update`: accumulate `dt` into the progress counter
unless the sink is paused. -/
def update (dt : Nat) (am : AudioManager) : AudioManager :=
  if !am.sink.paused then
    { am with playback_progress := am.playback_progress + dt }
  else am

/-- `AudioManager::get_volume`. -/
def get_volume (am : AudioManager) : ℚ := am.sink.volume

/-- `AudioManager::set_volume`. -/
def set_volume (am : AudioManager) (v : ℚ) : AudioManager :=
  { am with sink := { am.sink with volume := v } }

end AudioManager

/-- `enum AppUiMode`. -/
inductive AppUiMode where
  | fileList
  | searchPopup
  | infoPopup
  deriving Repr, DecidableEq

/-- `struct AppState`. -/
structure AppState where
  active_song : Option SongInfo
  playing_file_ix : Nat
  selected_file_ix : Nat
  search_query : Option String
  ui_mode : AppUiMode
  deriving Repr, DecidableEq

/-- `struct PlayerApp`. -/
structure PlayerApp where
  library : Library
  am : AudioManager
  alive : Bool
  app_state : AppState
  deriving Repr, DecidableEq

/-- Key codes the program distinguishes (`crossterm::event::KeyCode`);
`other` stands for any key the handler ignores. -/
inductive KeyCode where
  | char (c : Char)
  | down
  | up
  | right
  | left
  | enter
  | backspace
  | other
  deriving Repr, DecidableEq

/-- A polled key event: code, whether the modifier set equals `SHIFT`,
and whether the event kind is `Press`. -/
structure KeyEvent where
  code : KeyCode
  shift : Bool
  press : Bool
  deriving Repr, DecidableEq

namespace PlayerApp

/-- Getter `PlayerApp::selected_file_ix`. -/
def selected_file_ix (app : PlayerApp) : Nat := app.app_state.selected_file_ix

/-- Getter `PlayerApp::active_song`. -/
def active_song (app : PlayerApp) : Option SongInfo := app.app_state.active_song

/-- `PlayerApp::is_playing`. -/
def is_playing (app : PlayerApp) : Bool := !app.am.sink.paused

/-- `PlayerApp::volume_up`. -/
def volume_up (app : PlayerApp) : PlayerApp :=
  { app with am := app.am.set_volume (min (app.am.get_volume + 1 / 100) 1) }

/-- `PlayerApp::volume_down`. -/
def volume_down (app : PlayerApp) : PlayerApp :=
  { app with am := app.am.set_volume (max (app.am.get_volume - 1 / 100) 0) }

/-- `PlayerApp::play_at_ix`: unchecked indexing of the library at the
playing index (a Rust panic when out of bounds), then
`set_active_source` (whose error propagates leaving the state as it
was), then the snapshot replacement and `play`. -/
def play_at_ix (env : Env) (app : PlayerApp) : PlayerApp × Option RunErr :=
  match app.library.files.get? app.app_state.playing_file_ix with
  | none => (app, some (.panic "index out of bounds"))
  | some song =>
      match AudioManager.set_active_source env app.am song.file_path with
      | (am', some e) => ({ app with am := am' }, some e)
      | (am', none) =>
          ({ app with
              am := am'.play
              app_state := { app.app_state with active_song := some song } }, none)

/-- `PlayerApp::handle_events`, given the (at most one) key event the
bounded poll returned.  Search-text backspace is modelled at character
granularity (`q.len()` and the byte slice `q[..q.len()-1]` agree with
character counts on ASCII queries; no claim depends on multi-byte
queries). -/
def handle_events (env : Env) (app : PlayerApp) (ev : Option KeyEvent) :
    PlayerApp × Option RunErr :=
  match ev with
  | none => (app, none)
  | some k =>
    if k.press then
      if app.app_state.ui_mode = AppUiMode.fileList then
        match k.code with
        | .char c =>
          if c = 'q' then ({ app with alive := false }, none)
          else if c = 'p' then
            (if app.app_state.active_song.isSome then
              { app with am := app.am.toggle_playback } else app, none)
          else if c = 's' then
            match app.library.scan env.fs with
            | (lib', .ok _) => ({ app with library := lib' }, none)
            | (lib', .error e) => ({ app with library := lib' }, some (.err e))
          else if c = '=' then (app.volume_up, none)
          else if c = '-' then (app.volume_down, none)
          else if c = '/' then
            ({ app with app_state := { app.app_state with ui_mode := .searchPopup } }, none)
          else (app, none)
        | .down =>
          ({ app with app_state := { app.app_state with
              selected_file_ix :=
                min (usizeAdd1 app.app_state.selected_file_ix)
                  (usizeSub1 app.library.files.length) } }, none)
        | .up =>
          ({ app with app_state := { app.app_state with
              selected_file_ix := max app.app_state.selected_file_ix 1 - 1 } }, none)
        | .right =>
          if app.app_state.active_song.isSome then
            if k.shift then
              match app.am.skip with
              | (am', e) => ({ app with am := am' }, e)
            else ({ app with am := app.am.seek_forward env }, none)
          else (app, none)
        | .left =>
          if app.app_state.active_song.isSome then
            ({ app with am := app.am.seek_backward env }, none)
          else (app, none)
        | .enter =>
          play_at_ix env { app with app_state := { app.app_state with
            playing_file_ix := app.app_state.selected_file_ix } }
        | .backspace => (app, none)
        | .other => (app, none)
      else if app.app_state.ui_mode = AppUiMode.searchPopup then
        match k.code with
        | .enter =>
          ({ app with app_state := { app.app_state with ui_mode := .fileList } }, none)
        | .backspace =>
          match app.app_state.search_query with
          | some q =>
            if q.length = 1 then
              ({ app with app_state := { app.app_state with search_query := none } }, none)
            else
              ({ app with app_state := { app.app_state with
                  search_query := some (q.dropRight 1) } }, none)
          | none => (app, none)
        | .char c =>
          match app.app_state.search_query with
          | none =>
            ({ app with app_state := { app.app_state with
                search_query := some c.toString } }, none)
          | some q =>
            ({ app with app_state := { app.app_state with
                search_query := some (q.push c) } }, none)
        | _ => (app, none)
      else (app, none)
    else (app, none)

/-- `PlayerApp::update`: advance the audio clock, handle the pending
event, then run the end-of-track check against the (tag) duration of
the active song.  Note the check is **not** conditioned on the pause
flag, and `len() - 1` is the wrapping `usize` subtraction. -/
def update (env : Env) (dt : Nat) (ev : Option KeyEvent) (app : PlayerApp) :
    PlayerApp × Option RunErr :=
  let app1 := { app with am := app.am.update dt }
  match handle_events env app1 ev with
  | (app2, some e) => (app2, some e)
  | (app2, none) =>
    match app2.app_state.active_song with
    | none => (app2, none)
    | some s =>
      if s.duration ≤ app2.am.playback_progress then
        if app2.app_state.playing_file_ix < usizeSub1 app2.library.files.length then
          play_at_ix env { app2 with app_state := { app2.app_state with
            playing_file_ix := usizeAdd1 app2.app_state.playing_file_ix } }
        else ({ app2 with am := app2.am.pause }, none)
      else (app2, none)

end PlayerApp

/-- Fold `handle_events` over a sequence of key events (one per tick of
the input loop), keeping the state component. -/
def applyKeys (env : Env) (app : PlayerApp) : List KeyEvent → PlayerApp
  | [] => app
  | k :: ks => applyKeys env (PlayerApp.handle_events env app (some k)).1 ks

/-- Whether a tree node is a directory entry (`file_type().is_dir()`
answers true for it; a `dirMissing` is a directory whose later
`read_dir` fails). -/
def FsTree.isDir : FsTree → Bool
  | .dirOk _ _ => true
  | .dirMissing _ _ => true
  | _ => false

mutual
/-- Number of regular files with a supported extension in the tree
(the quantity `Library::scan` reports as `total_files_seen`). -/
def FsTree.supportedCount : FsTree → Nat
  | .dirOk _ es => FsTree.supportedCountList es
  | .file _ ext _ _ => if extSupported ext then 1 else 0
  | _ => 0

def FsTree.supportedCountList : List FsTree → Nat
  | [] => 0
  | t :: ts => FsTree.supportedCount t + FsTree.supportedCountList ts
end

mutual
/-- Number of supported-extension files whose tag read succeeds (the
tracks a successful scan loads). -/
def FsTree.parsedCount : FsTree → Nat
  | .dirOk _ es => FsTree.parsedCountList es
  | .file _ ext tag _ => if extSupported ext && tag.isSome then 1 else 0
  | _ => 0

def FsTree.parsedCountList : List FsTree → Nat
  | [] => 0
  | t :: ts => FsTree.parsedCount t + FsTree.parsedCountList ts
end

/-! Concrete songs, trees, environments and app states used in the
scenario theorems, counterexamples and witnesses. -/

/-- Tag of `a.mp3`: artist "Bob", album "X", track 2, duration 10 s. -/
def tagBob : TagData := ⟨some "one", some "X", some "Bob", (some 2, none), some (secs 10)⟩

/-- Tag of `b.flac`: artist "Alice", album "Y", track 1, duration 5 s. -/
def tagAlice : TagData := ⟨some "two", some "Y", some "Alice", (some 1, none), some (secs 5)⟩

def songBob : SongInfo := SongInfo.new "/r/a.mp3" tagBob none

def songAlice : SongInfo := SongInfo.new "/r/b.flac" tagAlice none

def srcOk : Source := ⟨some (secs 7)⟩

/-- Environment where every decode and every seek succeeds. -/
def envOk : Env := ⟨fun _ => .ok srcOk, fun _ => true, .dirOk "/r" []⟩

/-- Environment where opening/decoding any path fails. -/
def envLoadFail : Env := ⟨fun _ => .error "decode failed", fun _ => true, .dirOk "/r" []⟩

/-- Environment where the sink rejects every seek. -/
def envSeekReject : Env := ⟨fun _ => .ok srcOk, fun _ => false, .dirOk "/r" []⟩

def keyDown : KeyEvent := ⟨.down, false, true⟩

def keyUp : KeyEvent := ⟨.up, false, true⟩

def keyShiftRight : KeyEvent := ⟨.right, true, true⟩

/-- Two-track library, first track active and playing from the start. -/
def appTwoSongs : PlayerApp :=
  ⟨⟨"/r", [songAlice, songBob]⟩, ⟨⟨false, [srcOk], 1⟩, 0, some (secs 5)⟩, true,
    ⟨some songAlice, 0, 0, none, .fileList⟩⟩

/-- Two-track library, first track active, engine paused, elapsed
exactly at the active track's duration. -/
def appPausedEnd : PlayerApp :=
  ⟨⟨"/r", [songAlice, songBob]⟩, ⟨⟨true, [srcOk], 1⟩, secs 5, some (secs 5)⟩, true,
    ⟨some songAlice, 0, 0, none, .fileList⟩⟩

/-- Paused mid-track: active track of 10 s, no elapsed time yet. -/
def appPausedMid : PlayerApp :=
  ⟨⟨"/r", [songBob]⟩, ⟨⟨true, [srcOk], 1⟩, 0, some (secs 10)⟩, true,
    ⟨some songBob, 0, 0, none, .fileList⟩⟩

/-- Empty library, nothing active, selection at 0, file-list mode. -/
def appEmptyLib : PlayerApp :=
  ⟨⟨"/r", []⟩, ⟨⟨true, [], 1⟩, 0, none⟩, true, ⟨none, 0, 0, none, .fileList⟩⟩

/-- A state a rescan that found nothing leaves behind: the library is
empty while a track is still active and playing past its duration. -/
def appStaleIx : PlayerApp :=
  ⟨⟨"/r", []⟩, ⟨⟨false, [srcOk], 1⟩, secs 5, some (secs 5)⟩, true,
    ⟨some songAlice, 0, 0, none, .fileList⟩⟩

/-- An active track whose decoder reported no upfront total duration. -/
def appSkipNoDur : PlayerApp :=
  ⟨⟨"/r", [songBob]⟩, ⟨⟨false, [srcOk], 1⟩, secs 2, none⟩, true,
    ⟨some songBob, 0, 0, none, .fileList⟩⟩

/-- Root with one good track and a subdirectory whose read fails. -/
def fsBroken : FsTree :=
  .dirOk "/r" [.file "/r/a.mp3" (some "mp3") (some tagBob) none,
    .dirMissing "/r/sub" "permission denied"]

/-- The spec's sort scenario: `a.mp3` by Bob and `b.flac` by Alice. -/
def fsAB : FsTree :=
  .dirOk "/r" [.file "/r/a.mp3" (some "mp3") (some tagBob) none,
    .file "/r/b.flac" (some "flac") (some tagAlice) none]

/-- One supported file whose tag read fails (the repository's own
`test_library_scans_flat_dir_no_valid_files` scenario). -/
def fsUnparseable : FsTree :=
  .dirOk "/r" [.file "/r/bad.mp3" (some "mp3") none none]

/-- A directory entry that fails to read next to a good track. -/
def fsEntrySkip : FsTree :=
  .dirOk "/r" [.entryFail, .file "/r/a.mp3" (some "mp3") (some tagBob) none]

/-! Arithmetic and order lemmas. -/

theorem usizeSub1_eq {n : Nat} (h1 : 1 ≤ n) (h2 : n < USIZE) : usizeSub1 n = n - 1 := by
  unfold usizeSub1
  have hU : 0 < USIZE := by unfold USIZE; positivity
  have : n + (USIZE - 1) = (n - 1) + USIZE := by omega
  rw [this, Nat.add_mod_right]
  exact Nat.mod_eq_of_lt (by omega)

theorem usizeAdd1_eq {n : Nat} (h : n + 1 < USIZE) : usizeAdd1 n = n + 1 := by
  unfold usizeAdd1
  exact Nat.mod_eq_of_lt h

theorem keyLe_trans (a b c : SongInfo) (hab : keyLe a b) (hbc : keyLe b c) : keyLe a c := by
  unfold keyLe at *
  rcases hab with h1 | ⟨e1, hab'⟩
  · rcases hbc with h2 | ⟨e2, _⟩
    · exact Or.inl (lt_trans h1 h2)
    · exact Or.inl (e2 ▸ h1)
  · rcases hbc with h2 | ⟨e2, hbc'⟩
    · exact Or.inl (e1 ▸ h2)
    · refine Or.inr ⟨e1.trans e2, ?_⟩
      rcases hab' with g1 | ⟨f1, hab''⟩
      · rcases hbc' with g2 | ⟨f2, _⟩
        · exact Or.inl (lt_trans g1 g2)
        · exact Or.inl (f2 ▸ g1)
      · rcases hbc' with g2 | ⟨f2, hbc''⟩
        · exact Or.inl (f1 ▸ g2)
        · exact Or.inr ⟨f1.trans f2, le_trans hab'' hbc''⟩

theorem keyLe_total (a b : SongInfo) : keyLe a b ∨ keyLe b a := by
  unfold keyLe
  rcases lt_trichotomy (artistKey a) (artistKey b) with h | h | h
  · exact Or.inl (Or.inl h)
  · rcases lt_trichotomy (albumKey a) (albumKey b) with g | g | g
    · exact Or.inl (Or.inr ⟨h, Or.inl g⟩)
    · rcases Nat.le_total (trackKey a) (trackKey b) with t | t
      · exact Or.inl (Or.inr ⟨h, Or.inr ⟨g, t⟩⟩)
      · exact Or.inr (Or.inr ⟨h.symm, Or.inr ⟨g.symm, t⟩⟩)
    · exact Or.inr (Or.inr ⟨h.symm, Or.inl g⟩)
  · exact Or.inr (Or.inl h)

/-- C1: end-of-track behavior of the per-tick update.  With a track
active, the engine playing, the playing index in bounds and the
elapsed clock (after the `dt` accumulation) at or past the active
track's duration, one call performs exactly one transition: if the
playing index is not the last library index, it advances by exactly
one (however far `dt` overshoots), that track is loaded and played and
elapsed is reset to zero; at the last index the engine is paused,
elapsed stays at or above the duration and the playing index is
unchanged (hence still in bounds). -/
theorem update_end_of_track_once
    (env : Env) (dt : Nat) (app : PlayerApp) (s : SongInfo)
    (hact : app.active_song = some s)
    (hplay : app.am.sink.paused = false)
    (hix : app.app_state.playing_file_ix < app.library.files.length)
    (hlen : app.library.files.length < USIZE)
    (hend : s.duration ≤ app.am.playback_progress + dt) :
    (app.app_state.playing_file_ix = app.library.files.length - 1 →
      PlayerApp.update env dt none app =
        ({ app with am := { app.am with
              playback_progress := app.am.playback_progress + dt
              sink := app.am.sink.pause } }, none))
    ∧
    (∀ song src,
      app.app_state.playing_file_ix + 1 < app.library.files.length →
      app.library.files.get? (app.app_state.playing_file_ix + 1) = some song →
      env.loader song.file_path = .ok src →
      PlayerApp.update env dt none app =
        ({ app with
            am := { sink := { paused := false, queue := [src], volume := app.am.sink.volume }
                    playback_progress := 0
                    active_source_duration := src.totalDuration }
            app_state := { app.app_state with
              playing_file_ix := app.app_state.playing_file_ix + 1
              active_song := some song } }, none)) := by
  obtain ⟨⟨root, files⟩, ⟨⟨pz, qz, vz⟩, prog, adur⟩, alv, ⟨asong, pix, six, sq, mode⟩⟩ := app
  simp only [PlayerApp.active_song] at hact
  simp only at hact hplay hix hlen hend ⊢
  subst hact
  subst hplay
  have hlen1 : 1 ≤ files.length := by omega
  have hsub : usizeSub1 files.length = files.length - 1 := usizeSub1_eq hlen1 hlen
  constructor
  · intro hlast
    simp only [PlayerApp.update, AudioManager.update, PlayerApp.handle_events,
      Bool.not_false, if_pos, hsub]
    simp only [AudioManager.pause, Sink.pause]
    rw [if_pos hend, if_neg (by omega)]
  · intro song src hix1 hsong hload
    have hadd : usizeAdd1 pix = pix + 1 := usizeAdd1_eq (by omega)
    simp only [PlayerApp.update, AudioManager.update, PlayerApp.handle_events,
      Bool.not_false, if_pos, hsub]
    rw [if_pos hend, if_pos (by omega)]
    simp only [PlayerApp.play_at_ix, hadd, hsong, AudioManager.set_active_source, hload,
      AudioManager.play, Sink.play, Sink.clear, Sink.append]
    simp

/-- Witness for C1: in the two-track library with the 5-second first
track active and 6 seconds of time passing, one update advances the
playing index from 0 to 1, loads and plays the second track and resets
elapsed to zero. -/
theorem update_end_of_track_once_witness :
    PlayerApp.update envOk (secs 6) none appTwoSongs =
      ({ appTwoSongs with
          am := { sink := { paused := false, queue := [srcOk], volume := 1 }
                  playback_progress := 0
                  active_source_duration := some (secs 7) }
          app_state := { appTwoSongs.app_state with
            playing_file_ix := 1
            active_song := some songBob } }, none) :=
  (update_end_of_track_once envOk (secs 6) appTwoSongs songAlice rfl rfl
    (by decide) (by decide) (by decide)).2 songBob srcOk (by decide) rfl rfl

/-- C5 counterexample: a paused session whose elapsed clock sits at the
active track's duration (with a further track in the library) has its
elapsed time changed by the per-tick update even with `dt = 0` — the
end-of-track branch is not conditioned on the pause flag, so the next
track is loaded and elapsed is reset to zero. -/
theorem update_paused_changes_elapsed_cex :
    appPausedEnd.am.sink.paused = true ∧
    appPausedEnd.am.playback_progress = secs 5 ∧
    (PlayerApp.update envOk 0 none appPausedEnd).1.am.playback_progress = 0 :=
  ⟨rfl, rfl, rfl⟩

/-- C5 amended: the elapsed-accumulation step (`AudioManager::update`)
never changes elapsed when the sink is paused and adds exactly `dt`
when it is playing; the full per-tick update (`PlayerApp::update`)
leaves a paused session entirely unchanged provided no end-of-track
transition fires, i.e. when either no track is active or elapsed is
still below the active track's duration. -/
theorem update_paused_frozen_amended :
    (∀ (am : AudioManager) (dt : Nat), am.sink.paused = true →
      AudioManager.update dt am = am)
    ∧ (∀ (am : AudioManager) (dt : Nat), am.sink.paused = false →
      (AudioManager.update dt am).playback_progress = am.playback_progress + dt)
    ∧ (∀ (env : Env) (dt : Nat) (app : PlayerApp), app.am.sink.paused = true →
      (∀ s, app.active_song = some s → app.am.playback_progress < s.duration) →
      PlayerApp.update env dt none app = (app, none)) := by
  refine ⟨?_, ?_, ?_⟩
  · intro am dt h
    simp [AudioManager.update, h]
  · intro am dt h
    simp [AudioManager.update, h]
  · intro env dt app hp hlt
    obtain ⟨⟨root, files⟩, ⟨⟨pz, qz, vz⟩, prog, adur⟩, alv, ⟨asong, pix, six, sq, mode⟩⟩ := app
    simp only at hp
    subst hp
    simp only [PlayerApp.active_song] at hlt
    cases asong with
    | none =>
      simp [PlayerApp.update, AudioManager.update, PlayerApp.handle_events]
    | some s =>
      have hs := hlt s rfl
      simp only at hs
      simp only [PlayerApp.update, AudioManager.update, Bool.not_true, PlayerApp.handle_events,
        Bool.false_eq_true, if_false]
      rw [if_neg (by omega)]

/-- Witness for C5's amended statement: three seconds of wall time
leave a paused mid-track session untouched. -/
theorem update_paused_frozen_amended_witness :
    PlayerApp.update envOk (secs 3) none appPausedMid = (appPausedMid, none) :=
  update_paused_frozen_amended.2.2 envOk (secs 3) appPausedMid rfl
    (fun s hs => by
      have : songBob = s := Option.some.inj hs
      subst this
      decide)

/-- C2 counterexample: with an empty library (hence an empty displayed
list) and the selection at 0, the Down intent is not a no-op — the
clamp bound `len() - 1` wraps around (release semantics; a debug build
panics at the subtraction), so the selection index becomes 1. -/
theorem select_down_empty_cex :
    appEmptyLib.library.files.length = 0 ∧
    appEmptyLib.selected_file_ix = 0 ∧
    (PlayerApp.handle_events envOk appEmptyLib (some keyDown)).1.selected_file_ix = 1 :=
  ⟨rfl, rfl, rfl⟩

theorem down_step (env : Env) (app : PlayerApp)
    (hmode : app.app_state.ui_mode = .fileList) :
    PlayerApp.handle_events env app (some keyDown) =
      ({ app with app_state := { app.app_state with
          selected_file_ix := min (usizeAdd1 app.app_state.selected_file_ix)
            (usizeSub1 app.library.files.length) } }, none) := by
  simp [PlayerApp.handle_events, hmode, keyDown]

theorem up_step (env : Env) (app : PlayerApp)
    (hmode : app.app_state.ui_mode = .fileList) :
    PlayerApp.handle_events env app (some keyUp) =
      ({ app with app_state := { app.app_state with
          selected_file_ix := max app.app_state.selected_file_ix 1 - 1 } }, none) := by
  simp [PlayerApp.handle_events, hmode, keyUp]

/-- C2 amended: Down and Up clamp the selection against the **full**
library length (the filter plays no part in the bound).  For any
sequence of Down/Up intents in file-list mode over a non-empty
library, the selection index stays within `[0, len - 1]`, clamping at
both ends with no wraparound.  On an empty library Up is a safe no-op
at index 0, but Down moves the index up by one per press (the wrapped
clamp bound is vacuous). -/
theorem select_bounds_amended :
    (∀ (env : Env) (app : PlayerApp) (ks : List KeyEvent),
      (∀ k ∈ ks, k = keyDown ∨ k = keyUp) →
      app.app_state.ui_mode = .fileList →
      0 < app.library.files.length → app.library.files.length < USIZE →
      app.selected_file_ix < app.library.files.length →
      (applyKeys env app ks).selected_file_ix < app.library.files.length)
    ∧ (∀ (env : Env) (app : PlayerApp), app.app_state.ui_mode = .fileList →
      0 < app.library.files.length → app.library.files.length < USIZE →
      app.selected_file_ix = app.library.files.length - 1 →
      app.selected_file_ix + 1 < USIZE →
      (PlayerApp.handle_events env app (some keyDown)).1.selected_file_ix =
        app.library.files.length - 1)
    ∧ (∀ (env : Env) (app : PlayerApp), app.app_state.ui_mode = .fileList →
      app.selected_file_ix = 0 →
      (PlayerApp.handle_events env app (some keyUp)).1.selected_file_ix = 0)
    ∧ (∀ (env : Env) (app : PlayerApp), app.app_state.ui_mode = .fileList →
      app.library.files.length = 0 → app.selected_file_ix + 1 < USIZE →
      (PlayerApp.handle_events env app (some keyDown)).1.selected_file_ix =
        app.selected_file_ix + 1) := by
  refine ⟨?_, ?_, ?_, ?_⟩
  · intro env app ks
    induction ks generalizing app with
    | nil =>
      intro _ _ _ _ hsel
      simpa [applyKeys] using hsel
    | cons k ks ih =>
      intro hks hmode h0 hU hsel
      have h1 : 1 ≤ app.library.files.length := h0
      have hstep : ∃ app', PlayerApp.handle_events env app (some k) = (app', none) ∧
          app'.library = app.library ∧ app'.app_state.ui_mode = AppUiMode.fileList ∧
          app'.selected_file_ix < app.library.files.length := by
        rcases hks k (by simp) with rfl | rfl
        · refine ⟨_, down_step env app hmode, rfl, hmode, ?_⟩
          simp only [PlayerApp.selected_file_ix]
          rw [usizeSub1_eq h1 hU]
          have := min_le_right (usizeAdd1 app.app_state.selected_file_ix)
            (app.library.files.length - 1)
          omega
        · refine ⟨_, up_step env app hmode, rfl, hmode, ?_⟩
          simp only [PlayerApp.selected_file_ix] at hsel ⊢
          have : max app.app_state.selected_file_ix 1 - 1 ≤
              app.app_state.selected_file_ix := by
            rcases Nat.le_total app.app_state.selected_file_ix 1 with h' | h' <;>
              · simp only [Nat.max_def]
                split <;> omega
          omega
      obtain ⟨app', hev, hlib, hmode', hlt⟩ := hstep
      have := ih app' (fun k' hk' => hks k' (by simp [hk'])) hmode'
        (by rw [hlib]; exact h0) (by rw [hlib]; exact hU) (by rw [hlib]; exact hlt)
      rw [hlib] at this
      simpa [applyKeys, hev] using this
  · intro env app hmode h0 hU hlast hsel1
    rw [down_step env app hmode]
    simp only [PlayerApp.selected_file_ix]
    rw [usizeSub1_eq h0 hU, usizeAdd1_eq (by simpa [PlayerApp.selected_file_ix] using hsel1)]
    simp only [PlayerApp.selected_file_ix] at hlast
    omega
  · intro env app hmode hzero
    rw [up_step env app hmode]
    simp only [PlayerApp.selected_file_ix] at hzero ⊢
    rw [hzero]
    rfl
  · intro env app hmode hempty hsel1
    rw [down_step env app hmode]
    simp only [PlayerApp.selected_file_ix] at hsel1 ⊢
    rw [hempty, usizeAdd1_eq hsel1]
    unfold usizeSub1
    have hU : (0 + (USIZE - 1)) % USIZE = USIZE - 1 := by
      apply Nat.mod_eq_of_lt
      unfold USIZE
      omega
    rw [hU]
    have : app.app_state.selected_file_ix + 1 ≤ USIZE - 1 := by omega
    omega

/-- Witness for C2's amended statement: from the two-track library any
Down/Down/Up sequence keeps the selection below the length 2. -/
theorem select_bounds_amended_witness :
    (applyKeys envOk appTwoSongs [keyDown, keyDown, keyUp]).selected_file_ix <
      appTwoSongs.library.files.length :=
  select_bounds_amended.1 envOk appTwoSongs [keyDown, keyDown, keyUp]
    (by decide) rfl (by decide) (by decide) (by decide)

/-- C3: activation is atomic with respect to load failure.  With the
playing index denoting some library track, a decode/open failure
propagates synchronously (`RunErr.err`) and the whole prior state —
the sink's queue (the old track keeps playing), the pause flag, the
active-track snapshot and the elapsed clock — is returned unchanged.
On success the sink holds exactly the new source, the snapshot is
replaced, elapsed is reset to zero and playback starts. -/
theorem play_at_ix_atomic (env : Env) (app : PlayerApp) (song : SongInfo)
    (hsong : app.library.files.get? app.app_state.playing_file_ix = some song) :
    (∀ e, env.loader song.file_path = .error e →
      PlayerApp.play_at_ix env app = (app, some (.err e)))
    ∧ (∀ src, env.loader song.file_path = .ok src →
      PlayerApp.play_at_ix env app =
        ({ app with
            am := { sink := { paused := false, queue := [src], volume := app.am.sink.volume }
                    playback_progress := 0
                    active_source_duration := src.totalDuration }
            app_state := { app.app_state with active_song := some song } }, none)) := by
  constructor
  · intro e hload
    simp only [PlayerApp.play_at_ix, hsong, AudioManager.set_active_source, hload]
  · intro src hload
    simp only [PlayerApp.play_at_ix, hsong, AudioManager.set_active_source, hload,
      AudioManager.play, Sink.play, Sink.clear, Sink.append]
    simp

/-- Witness for C3: failing to decode the selected track leaves the
playing two-track session exactly as it was, with the error surfaced. -/
theorem play_at_ix_atomic_witness :
    PlayerApp.play_at_ix envLoadFail appTwoSongs =
      (appTwoSongs, some (.err "decode failed")) :=
  (play_at_ix_atomic envLoadFail appTwoSongs songAlice rfl).1 "decode failed" rfl

/-- C6 counterexample: at half a second of progress, a backward seek
that the engine rejects still zeroes the elapsed counter — the clamp
branch assigns before calling `try_seek` and discards its result. -/
theorem seek_backward_commit_cex :
    (AudioManager.seek_backward envSeekReject
        ⟨⟨false, [srcOk], 1⟩, 500000000, some (secs 7)⟩).playback_progress = 0 ∧
    (500000000 : Nat) ≠ 0 :=
  ⟨rfl, by decide⟩

/-- C6 amended: the steps are asymmetric and fixed (5 s forward, 1 s
backward).  A forward seek commits exactly when the engine accepts it;
a backward seek from at least one second of progress commits exactly
when the engine accepts it; but below one second the backward seek
clamps elapsed to zero unconditionally, whether or not the engine
accepts the seek (both failures are silent). -/
theorem seek_commit_amended :
    (secs 1 < secs 5)
    ∧ (∀ (env : Env) (am : AudioManager),
      env.seekOk (am.playback_progress + secs 5) = true →
      AudioManager.seek_forward env am =
        { am with playback_progress := am.playback_progress + secs 5 })
    ∧ (∀ (env : Env) (am : AudioManager),
      env.seekOk (am.playback_progress + secs 5) = false →
      AudioManager.seek_forward env am = am)
    ∧ (∀ (env : Env) (am : AudioManager), secs 1 ≤ am.playback_progress →
      env.seekOk (am.playback_progress - secs 1) = true →
      AudioManager.seek_backward env am =
        { am with playback_progress := am.playback_progress - secs 1 })
    ∧ (∀ (env : Env) (am : AudioManager), secs 1 ≤ am.playback_progress →
      env.seekOk (am.playback_progress - secs 1) = false →
      AudioManager.seek_backward env am = am)
    ∧ (∀ (env : Env) (am : AudioManager), am.playback_progress < secs 1 →
      AudioManager.seek_backward env am = { am with playback_progress := 0 }) := by
  refine ⟨by decide, ?_, ?_, ?_, ?_, ?_⟩
  · intro env am h
    simp [AudioManager.seek_forward, h]
  · intro env am h
    simp [AudioManager.seek_forward, h]
  · intro env am hge h
    rw [AudioManager.seek_backward, if_neg (by omega), if_pos h]
  · intro env am hge h
    rw [AudioManager.seek_backward, if_neg (by omega), if_neg (by simp [h])]
  · intro env am hlt
    rw [AudioManager.seek_backward, if_pos (by omega)]

/-- Witness for C6's amended statement: with the engine rejecting all
seeks, a backward seek from half a second clamps elapsed to zero. -/
theorem seek_commit_amended_witness :
    AudioManager.seek_backward envSeekReject ⟨⟨false, [srcOk], 1⟩, 500000000, some (secs 7)⟩ =
      { (⟨⟨false, [srcOk], 1⟩, 500000000, some (secs 7)⟩ : AudioManager) with
        playback_progress := 0 } :=
  seek_commit_amended.2.2.2.2.2 envSeekReject
    ⟨⟨false, [srcOk], 1⟩, 500000000, some (secs 7)⟩ (by decide)

/-- C7 (code slip): `skip` reads the engine-reported source duration,
not the active-track snapshot.  With a track active whose decoder
reported no upfront total duration — a case the design explicitly
allows — the `expect` fails, i.e. Shift+Right panics even though a
track is active.  (With a reported duration the operation succeeds and
sets elapsed to that engine-reported duration.) -/
theorem skip_panics_without_engine_duration :
    appSkipNoDur.active_song.isSome = true ∧
    appSkipNoDur.am.active_source_duration = none ∧
    AudioManager.skip appSkipNoDur.am =
      (appSkipNoDur.am, some (.panic "Already checked if we have an active source.")) ∧
    PlayerApp.handle_events envOk appSkipNoDur (some keyShiftRight) =
      (appSkipNoDur, some (.panic "Already checked if we have an active source.")) ∧
    (∀ (am : AudioManager) (d : Nat), am.active_source_duration = some d →
      AudioManager.skip am = ({ am with playback_progress := d }, none)) := by
  refine ⟨rfl, rfl, rfl, rfl, ?_⟩
  intro am d h
  simp [AudioManager.skip, h]

/-- C10: the activation routine indexes the library unchecked at the
playing index.  Out of bounds — in particular on an empty library —
it is a Rust panic; under the precondition that the playing index is
strictly below the library length it never panics (it either succeeds
or surfaces a load error).  The final conjunct shows the panic is
reachable through the automatic end-of-track advance after a rescan
emptied the library while a track was still active. -/
theorem play_at_ix_requires_in_bounds :
    (∀ (env : Env) (app : PlayerApp),
      app.library.files.length ≤ app.app_state.playing_file_ix →
      PlayerApp.play_at_ix env app = (app, some (.panic "index out of bounds")))
    ∧ (∀ (env : Env) (app : PlayerApp),
      app.app_state.playing_file_ix < app.library.files.length →
      ∀ m, (PlayerApp.play_at_ix env app).2 ≠ some (.panic m))
    ∧ (PlayerApp.update envOk 0 none appStaleIx).2 =
        some (.panic "index out of bounds") := by
  refine ⟨?_, ?_, rfl⟩
  · intro env app h
    have hnone : app.library.files.get? app.app_state.playing_file_ix = none :=
      List.get?_eq_none.mpr h
    simp only [PlayerApp.play_at_ix, hnone]
  · intro env app h m
    have hsome : app.library.files.get? app.app_state.playing_file_ix =
        some (app.library.files[app.app_state.playing_file_ix]) := by
      rw [List.get?_eq_getElem?]
      exact List.getElem?_eq_getElem h
    rw [PlayerApp.play_at_ix, hsome]
    cases hload : env.loader
        (app.library.files[app.app_state.playing_file_ix]).file_path with
    | error e =>
      simp [AudioManager.set_active_source, hload]
    | ok src =>
      simp [AudioManager.set_active_source, hload]

/-- Witness for C10: activating on the empty library panics; on the
two-track library at index 0 no panic is possible. -/
theorem play_at_ix_requires_in_bounds_witness :
    PlayerApp.play_at_ix envOk appEmptyLib =
      (appEmptyLib, some (.panic "index out of bounds")) ∧
    ∀ m, (PlayerApp.play_at_ix envOk appTwoSongs).2 ≠ some (.panic m) :=
  ⟨play_at_ix_requires_in_bounds.1 envOk appEmptyLib (by decide),
    fun m => play_at_ix_requires_in_bounds.2.1 envOk appTwoSongs (by decide) m⟩

unseal scanLoop in
/-- C4 counterexample: a scan that finds one good track in the root and
then fails to read a subdirectory returns the error with the library
*partially populated* (it holds the track found before the failure),
not cleared. -/
theorem scan_error_not_empty_cex :
    Library.scan ⟨"/r", [songAlice]⟩ fsBroken =
      (⟨"/r", [songBob]⟩, .error "permission denied") ∧
    ([songBob] : List SongInfo) ≠ [] :=
  ⟨rfl, by decide⟩

unseal scanLoop List.merge List.mergeSort in
/-- C4 amended: a directory-open or file-type failure does abort the
scan with an error and the *previous* library contents are discarded
(the scan clears first, so the result never depends on them), but on
such a failure the library keeps the tracks discovered before the
failure — it can be non-empty.  A failure to read an individual
directory entry is silently skipped, not fatal. -/
theorem scan_error_amended :
    (∀ (lib : Library) (fs : FsTree),
      Library.scan lib fs = Library.scan ⟨lib.root_dir, []⟩ fs)
    ∧ (Library.scan ⟨"/r", [songAlice]⟩ fsBroken).2 = .error "permission denied"
    ∧ (Library.scan ⟨"/r", [songAlice]⟩ fsBroken).1.files = [songBob]
    ∧ Library.scan ⟨"/r", []⟩ fsEntrySkip = (⟨"/r", [songBob]⟩, .ok 1) := by
  refine ⟨?_, rfl, rfl, rfl⟩
  intro lib fs
  rfl

unseal scanLoop List.merge List.mergeSort in
/-- C8: after every successful scan the track sequence is sorted by
(artist ascending with absent as "Unknown", then album likewise, then
track number with absent as 0); and the spec's concrete scenario —
`a.mp3` by Bob (album "X", track 2) next to `b.flac` by Alice (album
"Y", track 1) — yields seen = 2 and `files() = [b.flac, a.mp3]`. -/
theorem scan_sorted_by_key :
    (∀ (lib : Library) (fs : FsTree) (lib' : Library) (seen : Nat),
      Library.scan lib fs = (lib', .ok seen) → List.Sorted keyLe lib'.files)
    ∧ Library.scan ⟨"/r", []⟩ fsAB = (⟨"/r", [songAlice, songBob]⟩, .ok 2) := by
  constructor
  · intro lib fs lib' seen h
    simp only [Library.scan] at h
    rcases hscan : scanLoop [fs] [] 0 with ⟨files, r⟩
    rw [hscan] at h
    cases r with
    | error e => simp at h
    | ok n =>
      simp only [Prod.mk.injEq, Except.ok.injEq] at h
      obtain ⟨h1, -⟩ := h
      subst h1
      show List.Sorted keyLe (sortFiles files)
      have hp := @List.sorted_mergeSort SongInfo (fun a b => decide (keyLe a b))
        (fun a b c hab hbc => decide_eq_true
          (keyLe_trans a b c (of_decide_eq_true hab) (of_decide_eq_true hbc)))
        (fun a b => by
          rcases keyLe_total a b with hk | hk
          · simp [decide_eq_true hk]
          · simp [decide_eq_true hk])
        files
      exact hp.imp fun hab => of_decide_eq_true hab
  · rfl

unseal scanLoop List.merge List.mergeSort in
/-- Witness for C8: the scenario library is sorted by the scan key. -/
theorem scan_sorted_by_key_witness :
    List.Sorted keyLe [songAlice, songBob] :=
  scan_sorted_by_key.1 ⟨"/r", []⟩ fsAB ⟨"/r", [songAlice, songBob]⟩ 2 rfl

theorem supportedCountList_append (xs ys : List FsTree) :
    FsTree.supportedCountList (xs ++ ys) =
      FsTree.supportedCountList xs + FsTree.supportedCountList ys := by
  induction xs with
  | nil => simp [FsTree.supportedCountList]
  | cons x xs ih => simp [FsTree.supportedCountList, ih]; omega

theorem supportedCountList_reverse (xs : List FsTree) :
    FsTree.supportedCountList xs.reverse = FsTree.supportedCountList xs := by
  induction xs with
  | nil => rfl
  | cons x xs ih =>
    simp [List.reverse_cons, supportedCountList_append, FsTree.supportedCountList, ih]
    omega

theorem parsedCountList_append (xs ys : List FsTree) :
    FsTree.parsedCountList (xs ++ ys) =
      FsTree.parsedCountList xs + FsTree.parsedCountList ys := by
  induction xs with
  | nil => simp [FsTree.parsedCountList]
  | cons x xs ih => simp [FsTree.parsedCountList, ih]; omega

theorem parsedCountList_reverse (xs : List FsTree) :
    FsTree.parsedCountList xs.reverse = FsTree.parsedCountList xs := by
  induction xs with
  | nil => rfl
  | cons x xs ih =>
    simp [List.reverse_cons, parsedCountList_append, FsTree.parsedCountList, ih]
    omega

theorem processEntries_spec (es : List FsTree) (acc : List SongInfo) (seen : Nat) :
    ∀ (acc' : List SongInfo) (seen' : Nat) (subdirs : List FsTree),
    processEntries es acc seen = (acc', .ok (seen', subdirs)) →
      seen' + FsTree.supportedCountList subdirs = seen + FsTree.supportedCountList es ∧
      acc'.length + FsTree.parsedCountList subdirs = acc.length + FsTree.parsedCountList es ∧
      acc'.length + seen ≤ acc.length + seen' ∧
      (∀ t ∈ subdirs, t.isDir = true) := by
  induction es, acc, seen using processEntries.induct with
  | case1 acc seen =>
    intro acc' seen' subdirs h
    simp only [processEntries, Prod.mk.injEq, Except.ok.injEq] at h
    obtain ⟨h1, h2, h3⟩ := h
    subst h1; subst h2; subst h3
    simp [FsTree.supportedCountList, FsTree.parsedCountList]
  | case2 es acc seen ih =>
    intro acc' seen' subdirs h
    simp only [processEntries] at h
    obtain ⟨e1, e2, e3, e4⟩ := ih _ _ _ h
    have hs : FsTree.supportedCountList (FsTree.entryFail :: es) =
        FsTree.supportedCountList es := by
      simp [FsTree.supportedCountList, FsTree.supportedCount]
    have hp : FsTree.parsedCountList (FsTree.entryFail :: es) =
        FsTree.parsedCountList es := by
      simp [FsTree.parsedCountList, FsTree.parsedCount]
    exact ⟨by rw [hs]; omega, by rw [hp]; omega, e3, e4⟩
  | case3 p msg es acc seen =>
    intro acc' seen' subdirs h
    simp only [processEntries] at h
    cases h
  | case4 p sub es acc seen a s' sd hrec ih =>
    intro acc' seen' subdirs h
    simp only [processEntries, hrec, Prod.mk.injEq, Except.ok.injEq] at h
    obtain ⟨h1, h2, h3⟩ := h
    subst h1; subst h2; subst h3
    obtain ⟨e1, e2, e3, e4⟩ := ih _ _ _ hrec
    refine ⟨?_, ?_, e3, ?_⟩
    · simp only [FsTree.supportedCountList, FsTree.supportedCount]
      omega
    · simp only [FsTree.parsedCountList, FsTree.parsedCount]
      omega
    · intro t ht
      rcases List.mem_cons.mp ht with rfl | ht'
      · rfl
      · exact e4 t ht'
  | case5 p sub es acc seen hfail ih =>
    intro acc' seen' subdirs h
    simp only [processEntries] at h
    rcases hrec : processEntries es acc seen with ⟨a, r⟩
    rw [hrec] at h
    cases r with
    | ok v => exact absurd hrec (by rcases v with ⟨u1, u2⟩; intro hc; exact hfail _ _ _ hc)
    | error e => simp at h
  | case6 p m es acc seen a s' sd hrec ih =>
    intro acc' seen' subdirs h
    simp only [processEntries, hrec, Prod.mk.injEq, Except.ok.injEq] at h
    obtain ⟨h1, h2, h3⟩ := h
    subst h1; subst h2; subst h3
    obtain ⟨e1, e2, e3, e4⟩ := ih _ _ _ hrec
    refine ⟨?_, ?_, e3, ?_⟩
    · simp only [FsTree.supportedCountList, FsTree.supportedCount]
      omega
    · simp only [FsTree.parsedCountList, FsTree.parsedCount]
      omega
    · intro t ht
      rcases List.mem_cons.mp ht with rfl | ht'
      · rfl
      · exact e4 t ht'
  | case7 p m es acc seen hfail ih =>
    intro acc' seen' subdirs h
    simp only [processEntries] at h
    rcases hrec : processEntries es acc seen with ⟨a, r⟩
    rw [hrec] at h
    cases r with
    | ok v => exact absurd hrec (by rcases v with ⟨u1, u2⟩; intro hc; exact hfail _ _ _ hc)
    | error e => simp at h
  | case8 p ext md es acc seen hx t ih =>
    intro acc' seen' subdirs h
    simp only [processEntries, hx, if_pos] at h
    obtain ⟨e1, e2, e3, e4⟩ := ih _ _ _ h
    have hs : FsTree.supportedCountList (FsTree.file p ext (some t) md :: es) =
        1 + FsTree.supportedCountList es := by
      simp [FsTree.supportedCountList, FsTree.supportedCount, hx]
    have hp : FsTree.parsedCountList (FsTree.file p ext (some t) md :: es) =
        1 + FsTree.parsedCountList es := by
      simp [FsTree.parsedCountList, FsTree.parsedCount, hx]
    simp only [List.length_append, List.length_cons, List.length_nil] at e2 e3
    exact ⟨by rw [hs]; omega, by rw [hp]; omega, by omega, e4⟩
  | case9 p ext md es acc seen hx ih =>
    intro acc' seen' subdirs h
    simp only [processEntries, hx, if_pos] at h
    obtain ⟨e1, e2, e3, e4⟩ := ih _ _ _ h
    have hs : FsTree.supportedCountList (FsTree.file p ext none md :: es) =
        1 + FsTree.supportedCountList es := by
      simp [FsTree.supportedCountList, FsTree.supportedCount, hx]
    have hp : FsTree.parsedCountList (FsTree.file p ext none md :: es) =
        FsTree.parsedCountList es := by
      simp [FsTree.parsedCountList, FsTree.parsedCount]
    exact ⟨by rw [hs]; omega, by rw [hp]; omega, by omega, e4⟩
  | case10 p ext tag md es acc seen hx ih =>
    intro acc' seen' subdirs h
    rw [Bool.not_eq_true] at hx
    simp only [processEntries, hx, Bool.false_eq_true, if_false] at h
    obtain ⟨e1, e2, e3, e4⟩ := ih _ _ _ h
    have hs : FsTree.supportedCountList (FsTree.file p ext tag md :: es) =
        FsTree.supportedCountList es := by
      simp [FsTree.supportedCountList, FsTree.supportedCount, hx]
    have hp : FsTree.parsedCountList (FsTree.file p ext tag md :: es) =
        FsTree.parsedCountList es := by
      simp [FsTree.parsedCountList, FsTree.parsedCount, hx]
    exact ⟨by rw [hs]; omega, by rw [hp]; omega, e3, e4⟩
  | case11 p es acc seen ih =>
    intro acc' seen' subdirs h
    simp only [processEntries] at h
    obtain ⟨e1, e2, e3, e4⟩ := ih _ _ _ h
    have hs : FsTree.supportedCountList (FsTree.other p :: es) =
        FsTree.supportedCountList es := by
      simp [FsTree.supportedCountList, FsTree.supportedCount]
    have hp : FsTree.parsedCountList (FsTree.other p :: es) =
        FsTree.parsedCountList es := by
      simp [FsTree.parsedCountList, FsTree.parsedCount]
    exact ⟨by rw [hs]; omega, by rw [hp]; omega, e3, e4⟩

theorem scanLoop_dirOk (p : String) (entries rest : List FsTree) (acc : List SongInfo)
    (seen : Nat) :
    scanLoop (.dirOk p entries :: rest) acc seen =
      match processEntries entries acc seen with
      | (acc', .ok (seen', subdirs)) => scanLoop (subdirs.reverse ++ rest) acc' seen'
      | (acc', .error e) => (acc', .error e) := by
  rw [scanLoop]
  rcases hrec : processEntries entries acc seen with ⟨a, r⟩
  cases r with
  | ok v =>
    rcases v with ⟨s1, sd⟩
    simp
  | error e => simp

theorem scanLoop_spec (stack : List FsTree) (acc : List SongInfo) (seen : Nat) :
    ∀ (files : List SongInfo) (n : Nat),
    (∀ t ∈ stack, t.isDir = true) →
    scanLoop stack acc seen = (files, .ok n) →
      n = seen + FsTree.supportedCountList stack ∧
      files.length = acc.length + FsTree.parsedCountList stack ∧
      files.length + seen ≤ acc.length + n := by
  induction stack, acc, seen using scanLoop.induct with
  | case1 acc seen =>
    intro files n _ h
    simp only [scanLoop, Prod.mk.injEq, Except.ok.injEq] at h
    obtain ⟨h1, h2⟩ := h
    subst h1; subst h2
    simp [FsTree.supportedCountList, FsTree.parsedCountList]
  | case2 p entries rest acc seen acc' seen' subdirs hrec ih =>
    intro files n hdir h
    rw [scanLoop_dirOk, hrec] at h
    simp only at h
    obtain ⟨e1, e2, e3, e4⟩ := processEntries_spec _ _ _ _ _ _ hrec
    have hdir' : ∀ t ∈ subdirs.reverse ++ rest, t.isDir = true := by
      intro t ht
      rcases List.mem_append.mp ht with ht' | ht'
      · exact e4 t (List.mem_reverse.mp ht')
      · exact hdir t (List.mem_cons_of_mem _ ht')
    obtain ⟨g1, g2, g3⟩ := ih files n hdir' h
    rw [supportedCountList_append, supportedCountList_reverse] at g1
    rw [parsedCountList_append, parsedCountList_reverse] at g2
    refine ⟨?_, ?_, ?_⟩
    · simp only [FsTree.supportedCountList, FsTree.supportedCount]
      omega
    · simp only [FsTree.parsedCountList, FsTree.parsedCount]
      omega
    · omega
  | case3 p entries rest acc seen acc' e hrec =>
    intro files n _ h
    rw [scanLoop_dirOk, hrec] at h
    simp at h
  | case4 p msg tail acc x =>
    intro files n _ h
    simp only [scanLoop] at h
    cases h
  | case5 p ext tag md rest acc seen ih =>
    intro files n hdir _
    have := hdir (FsTree.file p ext tag md) (List.mem_cons_self _ _)
    simp [FsTree.isDir] at this
  | case6 rest acc seen ih =>
    intro files n hdir _
    have := hdir FsTree.entryFail (List.mem_cons_self _ _)
    simp [FsTree.isDir] at this
  | case7 p msg rest acc seen ih =>
    intro files n hdir _
    have := hdir (FsTree.typeFail p msg) (List.mem_cons_self _ _)
    simp [FsTree.isDir] at this
  | case8 p rest acc seen ih =>
    intro files n hdir _
    have := hdir (FsTree.other p) (List.mem_cons_self _ _)
    simp [FsTree.isDir] at this

unseal scanLoop List.merge List.mergeSort in
/-- C9: every successful scan reports as files-seen exactly the number
of supported-extension regular files in the tree, while the loaded
track list holds exactly those whose metadata parsed — so the seen
count includes extraction failures (which are skipped, not fatal) and
can exceed `files().len()`.  The concrete conjunct is the repository's
own scenario: one unparseable `.mp3` gives seen = 1 and no tracks. -/
theorem scan_seen_counts :
    (∀ (lib : Library) (fs : FsTree) (lib' : Library) (seen : Nat),
      fs.isDir = true →
      Library.scan lib fs = (lib', .ok seen) →
      seen = fs.supportedCount ∧
      lib'.files.length = fs.parsedCount ∧
      lib'.files.length ≤ seen)
    ∧ Library.scan ⟨"/r", []⟩ fsUnparseable = (⟨"/r", []⟩, .ok 1) := by
  constructor
  · intro lib fs lib' seen hdir h
    simp only [Library.scan] at h
    rcases hscan : scanLoop [fs] [] 0 with ⟨files, r⟩
    rw [hscan] at h
    cases r with
    | error e => simp at h
    | ok n =>
      simp only [Prod.mk.injEq, Except.ok.injEq] at h
      obtain ⟨h1, h2⟩ := h
      subst h1; subst h2
      have hstack : ∀ t ∈ [fs], t.isDir = true := by
        intro t ht
        rw [List.mem_singleton.mp ht]
        exact hdir
      obtain ⟨g1, g2, g3⟩ := scanLoop_spec [fs] [] 0 files n hstack hscan
      have hits : FsTree.supportedCountList [fs] = fs.supportedCount := by
        simp [FsTree.supportedCountList]
      have hitp : FsTree.parsedCountList [fs] = fs.parsedCount := by
        simp [FsTree.parsedCountList]
      have hlen : ({ lib with files := sortFiles files } : Library).files.length =
          files.length := by
        simp only [sortFiles]
        exact List.length_mergeSort files
      simp only [List.length_nil, Nat.zero_add, Nat.add_zero] at g1 g2 g3
      refine ⟨by omega, ?_, ?_⟩
      · rw [hlen, g2, hitp]
      · rw [hlen]
        omega
  · rfl

unseal scanLoop List.merge List.mergeSort in
/-- Witness for C9: applied to the unparseable-file scenario, the scan
sees one file and loads none. -/
theorem scan_seen_counts_witness :
    1 = fsUnparseable.supportedCount ∧
    (⟨"/r", []⟩ : Library).files.length = fsUnparseable.parsedCount ∧
    (⟨"/r", []⟩ : Library).files.length ≤ 1 :=
  scan_seen_counts.1 ⟨"/r", []⟩ fsUnparseable ⟨"/r", []⟩ 1 rfl rfl

end RustPlayer
